import Mathlib

/-!
# Verification of the event-sourced aggregate engine

Shallow embedding of `eventsourcing/examples/alternative_aggregate4/domainmodel.py`.

Python objects are modelled by their `__dict__`, an insertion-ordered
association list from field names to values (`Dict`).  The class-level
pending-event map `Aggregate.__pending_events` (a `defaultdict` keyed by
`id(self)`) is modelled by `Buffers`, an association list from object
identities to event lists.  Stateful methods are modelled as functions
threading an explicit `World` (the pending-event map plus a logical clock
standing for `datetime.now()`); fallible attribute access is modelled with
`Except PyError`.  Nondeterministic allocation (`uuid4()`, the `id()` of a
freshly created object) is made explicit as parameters.
-/

set_option autoImplicit false

namespace ES

/-- Python values that can be stored in an object field. -/
inductive PyVal where
  | int (n : Int)
  | uuid (u : Nat)
  | time (t : Nat)
  | str (s : String)
  | strList (l : List String)
deriving DecidableEq, Repr

/-- A Python object `__dict__`: an insertion-ordered association list from
field names to values. -/
abbrev Dict := List (String × PyVal)

/-- Attribute lookup: first binding of the key, if any. -/
def Dict.get : Dict → String → Option PyVal
  | [], _ => none
  | (k, v) :: d, key => if k = key then some v else Dict.get d key

/-- Attribute assignment: replace the binding in place if the key is present,
otherwise append it (Python dict insertion-order semantics). -/
def Dict.set : Dict → String → PyVal → Dict
  | [], key, val => [(key, val)]
  | (k, v) :: d, key, val =>
      if k = key then (k, val) :: d else (k, v) :: Dict.set d key val

/-- `d.updateWith s` is Python `d.update(s)`: fold every binding of `s` into
`d` in order, overwriting existing keys. -/
def Dict.updateWith (d s : Dict) : Dict :=
  s.foldl (fun acc kv => Dict.set acc kv.1 kv.2) d

/-- The keys of a dictionary, in order. -/
def Dict.keys (d : Dict) : List String := d.map Prod.fst

/-- A dictionary that corresponds to a real Python `dict` has no duplicate
keys. -/
def Dict.NodupKeys (d : Dict) : Prop := d.keys.Nodup

instance (d : Dict) : Decidable (Dict.NodupKeys d) :=
  decidable_of_iff (Dict.keys d).Nodup Iff.rfl

/-- Python exceptions raised by the modelled code. -/
inductive PyError where
  | attributeError (attr : String)
  | typeError
deriving DecidableEq, Repr

/-- `eventsourcing.domain.Snapshot`: a domain event carrying a full capture
of the aggregate's fields in `state`. -/
structure Snapshot where
  originator_id : Nat
  originator_version : Int
  timestamp : Nat
  state : Dict
deriving DecidableEq, Repr

/-- The domain events that can reach `Dog.apply`.  `registered` and
`trickAdded` are the two `Dog` event dataclasses, `snapshot` is the library
`Snapshot` class, and `other` stands for any further `DomainEvent` subclass,
for which `singledispatchmethod` falls back to the base handler. -/
inductive DomainEvent where
  | registered (originator_version : Int) (originator_id : Nat) (timestamp : Nat) (name : String)
  | trickAdded (originator_version : Int) (originator_id : Nat) (timestamp : Nat) (trick : String)
  | snapshot (s : Snapshot)
  | other (originator_version : Int) (originator_id : Nat) (timestamp : Nat) (kind : String)
deriving DecidableEq, Repr

/-- The common `originator_version` attribute of every event. -/
def DomainEvent.originator_version : DomainEvent → Int
  | .registered v _ _ _ => v
  | .trickAdded v _ _ _ => v
  | .snapshot s => s.originator_version
  | .other v _ _ _ => v

/-- The common `originator_id` attribute of every event. -/
def DomainEvent.originator_id : DomainEvent → Nat
  | .registered _ i _ _ => i
  | .trickAdded _ i _ _ => i
  | .snapshot s => s.originator_id
  | .other _ i _ _ => i

/-- An aggregate instance: its CPython identity `id(self)` and its
`__dict__`. -/
structure Obj where
  oid : Nat
  dict : Dict
deriving DecidableEq, Repr

/-- The class-level pending-event map `Aggregate.__pending_events`, keyed by
`id(self)`. -/
abbrev Buffers := List (Nat × List DomainEvent)

/-- Entry stored under key `k`, if present. -/
def Buffers.get? : Buffers → Nat → Option (List DomainEvent)
  | [], _ => none
  | (k, v) :: b, key => if k = key then some v else Buffers.get? b key

/-- `defaultdict(list)` read: a missing key behaves as the empty list. -/
def Buffers.getD (b : Buffers) (k : Nat) : List DomainEvent :=
  (b.get? k).getD []

/-- Store `v` under key `k`, replacing any existing entry. -/
def Buffers.set : Buffers → Nat → List DomainEvent → Buffers
  | [], key, val => [(key, val)]
  | (k, v) :: b, key, val =>
      if k = key then (k, val) :: b else (k, v) :: Buffers.set b key val

/-- `dict.pop(k)` (with the `KeyError` swallowed): remove the entry for `k`. -/
def Buffers.pop (b : Buffers) (k : Nat) : Buffers :=
  b.filter (fun kv => kv.1 != k)

/-- The mutable state outside any single aggregate instance: the class-level
pending-event map and a logical clock modelling `datetime.now()`. -/
structure World where
  buffers : Buffers
  clock : Nat
deriving DecidableEq, Repr

/-- The caller-supplied keyword arguments of `trigger_event` that name the
common envelope attributes (`None` models "not passed"); the kind-specific
payload is passed separately. -/
structure Kwargs where
  originator_id : Option Nat
  originator_version : Option Int
  timestamp : Option Nat
deriving DecidableEq, Repr

/-- `Dog.apply`, the `singledispatchmethod` of the only concrete aggregate:
* `Registered`: `super().__init__(event)` sets `id`, `version`, `created_on`,
  then the handler sets `name` and `tricks = []`;
* `TrickAdded`: appends to `self.tricks` (an `AttributeError` if the field is
  missing) and sets `version` to the event's `originator_version`;
* `Snapshot`: `self.__dict__.update(event.state)`;
* any other event kind falls back to the base handler, whose body is only a
  docstring, so nothing happens.
-/
def Dog.apply (d : Dict) : DomainEvent → Except PyError Dict
  | .registered v i t name =>
      Except.ok (((((d.set "id" (.uuid i)).set "version" (.int v)).set
        "created_on" (.time t)).set "name" (.str name)).set "tricks" (.strList []))
  | .trickAdded v _ _ trick =>
      match d.get "tricks" with
      | some (.strList l) =>
          Except.ok ((d.set "tricks" (.strList (l ++ [trick]))).set "version" (.int v))
      | some _ => Except.error (.attributeError "append")
      | none => Except.error (.attributeError "tricks")
  | .snapshot s => Except.ok (d.updateWith s.state)
  | .other _ _ _ _ => Except.ok d

/-- `Aggregate.trigger_event`: read `self.version` (line 48) and `self.id`
(line 53), both raising `AttributeError` when unset; copy the caller's
keyword arguments and overwrite `originator_id`, `originator_version` and
`timestamp` with the imposed values; construct the event from the resulting
keyword arguments; apply it; append it to the pending list. -/
def Aggregate.trigger_event (w : World) (self : Obj)
    (event_class : Int → Nat → Nat → String → DomainEvent)
    (kwargs : Kwargs) (payload : String) : Except PyError (World × Obj) := do
  let version ← match self.dict.get "version" with
    | some (.int v) => Except.ok v
    | _ => Except.error (.attributeError "version")
  let selfId ← match self.dict.get "id" with
    | some (.uuid i) => Except.ok i
    | _ => Except.error (.attributeError "id")
  let kwargs : Kwargs := { kwargs with
    originator_id := some selfId,
    originator_version := some (version + 1),
    timestamp := some w.clock }
  let new_event ← match kwargs.originator_version, kwargs.originator_id, kwargs.timestamp with
    | some v, some i, some t => Except.ok (event_class v i t payload)
    | _, _, _ => Except.error .typeError
  let dict' ← Dog.apply self.dict new_event
  Except.ok
    ({ buffers := w.buffers.set self.oid (w.buffers.getD self.oid ++ [new_event]),
       clock := w.clock + 1 },
     { self with dict := dict' })

/-- `Dog.add_trick`: `self.trigger_event(self.TrickAdded, trick=trick)`. -/
def Dog.add_trick (w : World) (self : Obj) (trick : String) :
    Except PyError (World × Obj) :=
  Aggregate.trigger_event w self DomainEvent.trickAdded ⟨none, none, none⟩ trick

/-- `Dog.__init__(name)`: the new object starts with an empty `__dict__` and
a fresh identity `oid`; a `Registered` event with a fresh `uuid4()` value
`u`, version `1` and a fresh timestamp is constructed, applied and appended
to the pending list. -/
def Dog.init (w : World) (oid u : Nat) (name : String) :
    Except PyError (World × Obj) := do
  let ev := DomainEvent.registered 1 u w.clock name
  let d ← Dog.apply [] ev
  Except.ok
    ({ buffers := w.buffers.set oid (w.buffers.getD oid ++ [ev]),
       clock := w.clock + 1 },
     ⟨oid, d⟩)

/-- `Aggregate.collect_events`: swap the instance's pending list with `[]`
and return the old list. -/
def Aggregate.collect_events (w : World) (self : Obj) :
    List DomainEvent × World :=
  (w.buffers.getD self.oid,
   { w with buffers := w.buffers.set self.oid [] })

/-- `Aggregate.projector`: the `aggregate` parameter is immediately shadowed
by `object.__new__(cls)` — a fresh object with identity `freshOid` and an
empty `__dict__` — and every event is applied to that fresh object in order.
The class-level pending-event map is threaded through untouched. -/
def Aggregate.projector (w : World) (aggregate : Option Obj)
    (events : List DomainEvent) (freshOid : Nat) :
    Except PyError (World × Obj) :=
  match events.foldlM Dog.apply ([] : Dict) with
  | Except.ok d => Except.ok (w, ⟨freshOid, d⟩)
  | Except.error e => Except.error e

/-- `Aggregate.__del__`: pop the instance's entry from the class-level
pending-event map, ignoring a `KeyError`. -/
def Aggregate.del (w : World) (self : Obj) : World :=
  { w with buffers := w.buffers.pop self.oid }

/-- Modelled from the spec: taking a snapshot of an aggregate is not part of
the sampled source (it lives in the excluded persistence layer), so it is
modelled from the spec's data model: `state` is "an opaque, complete
representation of the aggregate's in-memory fields at the moment of
snapshotting"; the envelope values (`originator_id`, `originator_version`,
`timestamp`) are supplied by the caller. -/
def Snapshot.take (a : Obj) (i : Nat) (v : Int) (t : Nat) : Snapshot :=
  ⟨i, v, t, a.dict⟩

/-- Run a sequence of `add_trick` calls, threading the world. -/
def Dog.runTricks (w : World) (self : Obj) : List String → Except PyError (World × Obj)
  | [] => Except.ok (w, self)
  | t :: ts => do
    let (w', self') ← Dog.add_trick w self t
    Dog.runTricks w' self' ts

/-- Construct a `Dog` and perform one `add_trick` call per listed trick. -/
def Dog.run (w : World) (oid u : Nat) (name : String) (tricks : List String) :
    Except PyError (World × Obj) := do
  let (w', dog) ← Dog.init w oid u name
  Dog.runTricks w' dog tricks

/-- The shape of a `Dog`'s `__dict__` after its founding event: the five
fields in the order the handlers assign them. -/
def dogState (u c : Nat) (name : String) (v : Int) (tricks : List String) : Dict :=
  [("id", .uuid u), ("version", .int v), ("created_on", .time c),
   ("name", .str name), ("tricks", .strList tricks)]

/-- The `TrickAdded` events produced by successive `add_trick` calls starting
from aggregate version `v` at clock `c`. -/
def trickEvents (u : Nat) (v : Int) (c : Nat) : List String → List DomainEvent
  | [] => []
  | t :: ts => DomainEvent.trickAdded (v + 1) u c t :: trickEvents u (v + 1) (c + 1) ts

/-- `consecutiveFromB v l` holds when `l` is exactly `v, v+1, v+2, ...`. -/
def consecutiveFromB : Int → List Int → Bool
  | _, [] => true
  | v, x :: xs => x == v && consecutiveFromB (v + 1) xs

/-! ## Dictionary lemmas -/

theorem Dict.get_set (a k : String) (v : PyVal) (d : Dict) :
    (d.set a v).get k = if a = k then some v else d.get k := by
  induction d with
  | nil => simp [Dict.set, Dict.get]
  | cons kv d ih =>
    obtain ⟨b, w⟩ := kv
    by_cases hba : b = a
    · subst hba
      by_cases hk : b = k <;> simp [Dict.set, Dict.get, hk]
    · by_cases hk : b = k
      · subst hk
        have : ¬ (a = b) := fun h => hba h.symm
        simp [Dict.set, Dict.get, hba, this]
      · simp [Dict.set, Dict.get, hba, hk, ih]

theorem Dict.mem_keys_set (x a : String) (v : PyVal) (d : Dict) :
    x ∈ (d.set a v).keys ↔ x ∈ d.keys ∨ x = a := by
  induction d with
  | nil => simp [Dict.set, Dict.keys]
  | cons kv d ih =>
    obtain ⟨b, w⟩ := kv
    by_cases hba : b = a
    · subst hba
      simp [Dict.set, Dict.keys]
      tauto
    · simp only [Dict.set, if_neg hba, Dict.keys, List.map_cons, List.mem_cons] at *
      rw [ih]
      tauto

theorem Dict.nodupKeys_set (a : String) (v : PyVal) (d : Dict)
    (h : d.NodupKeys) : (d.set a v).NodupKeys := by
  induction d with
  | nil => simp [Dict.set, Dict.NodupKeys, Dict.keys]
  | cons kv d ih =>
    obtain ⟨b, w⟩ := kv
    simp only [Dict.NodupKeys, Dict.keys, List.map_cons, List.nodup_cons] at h
    by_cases hba : b = a
    · subst hba
      simpa [Dict.set, Dict.NodupKeys, Dict.keys, List.nodup_cons] using h
    · simp only [Dict.set, if_neg hba, Dict.NodupKeys, Dict.keys, List.map_cons,
        List.nodup_cons]
      refine ⟨?_, ih h.2⟩
      intro hmem
      rcases (Dict.mem_keys_set b a v d).1 hmem with h1 | h1
      · exact h.1 h1
      · exact hba h1

theorem Dict.set_eq_append (a : String) (v : PyVal) (d : Dict)
    (h : a ∉ d.keys) : d.set a v = d ++ [(a, v)] := by
  induction d with
  | nil => simp [Dict.set]
  | cons kv d ih =>
    obtain ⟨b, w⟩ := kv
    simp only [Dict.keys, List.map_cons, List.mem_cons] at h
    push_neg at h
    have hba : b ≠ a := fun hh => h.1 hh.symm
    simp [Dict.set, hba, ih h.2]

theorem Dict.updateWith_cons (d : Dict) (k : String) (v : PyVal) (s : Dict) :
    d.updateWith ((k, v) :: s) = (d.set k v).updateWith s := rfl

theorem Dict.updateWith_nodupKeys (s : Dict) : ∀ d : Dict,
    d.NodupKeys → (d.updateWith s).NodupKeys := by
  induction s with
  | nil => intro d h; exact h
  | cons kv s ih =>
    intro d h
    rw [Dict.updateWith_cons]
    exact ih _ (Dict.nodupKeys_set kv.1 kv.2 d h)

theorem Dict.updateWith_append (s : Dict) : ∀ d : Dict,
    (∀ x ∈ s.keys, x ∉ d.keys) → s.NodupKeys → d.updateWith s = d ++ s := by
  induction s with
  | nil => intro d _ _; simp [Dict.updateWith]
  | cons kv s ih =>
    intro d hdisj hs
    obtain ⟨k, v⟩ := kv
    rw [Dict.updateWith_cons]
    have hk : k ∉ d.keys := hdisj k (by simp [Dict.keys])
    rw [Dict.set_eq_append k v d hk]
    simp only [Dict.NodupKeys, Dict.keys, List.map_cons, List.nodup_cons] at hs
    have hdisj' : ∀ x ∈ Dict.keys s, x ∉ Dict.keys (d ++ [(k, v)]) := by
      intro x hx
      simp only [Dict.keys, List.map_append, List.mem_append, List.map_cons,
        List.map_nil, List.mem_cons, List.not_mem_nil, or_false]
      push_neg
      constructor
      · exact hdisj x (by simp only [Dict.keys, List.map_cons, List.mem_cons]; exact Or.inr hx)
      · intro hxk
        exact hs.1 (hxk ▸ hx)
    rw [ih (d ++ [(k, v)]) hdisj' hs.2]
    simp

theorem Dict.updateWith_nil (s : Dict) (hs : s.NodupKeys) :
    Dict.updateWith [] s = s := by
  rw [Dict.updateWith_append s [] (by simp [Dict.keys]) hs]
  simp

theorem Dict.get_eq_none (d : Dict) (a : String) (h : a ∉ d.keys) :
    d.get a = none := by
  induction d with
  | nil => rfl
  | cons kv d ih =>
    obtain ⟨b, w⟩ := kv
    simp only [Dict.keys, List.map_cons, List.mem_cons] at h
    push_neg at h
    have : b ≠ a := fun hh => h.1 hh.symm
    simp [Dict.get, this, ih h.2]

theorem Dict.get_updateWith (s : Dict) : ∀ (d : Dict) (k : String),
    s.NodupKeys →
    (d.updateWith s).get k =
      match s.get k with
      | some v => some v
      | none => d.get k := by
  induction s with
  | nil => intro d k _; simp [Dict.updateWith, Dict.get]
  | cons kv s ih =>
    intro d k hs
    obtain ⟨a, v⟩ := kv
    simp only [Dict.NodupKeys, Dict.keys, List.map_cons, List.nodup_cons] at hs
    rw [Dict.updateWith_cons, ih (Dict.set d a v) k hs.2]
    by_cases hak : a = k
    · subst hak
      have hnone : Dict.get s a = none := Dict.get_eq_none s a hs.1
      simp [hnone, Dict.get, Dict.get_set]
    · cases hsk : Dict.get s k with
      | some w => simp [Dict.get, hak, hsk]
      | none => simp [Dict.get, hak, hsk, Dict.get_set]

/-! ## Buffer lemmas -/

theorem Buffers.get?_set_self (b : Buffers) (k : Nat) (v : List DomainEvent) :
    (b.set k v).get? k = some v := by
  induction b with
  | nil => simp [Buffers.set, Buffers.get?]
  | cons kv b ih =>
    obtain ⟨a, w⟩ := kv
    by_cases hak : a = k <;> simp [Buffers.set, Buffers.get?, hak, ih]

theorem Buffers.getD_set_self (b : Buffers) (k : Nat) (v : List DomainEvent) :
    (b.set k v).getD k = v := by
  simp [Buffers.getD, Buffers.get?_set_self]

theorem Buffers.get?_set_ne (b : Buffers) (k k' : Nat) (v : List DomainEvent)
    (h : k ≠ k') : (b.set k v).get? k' = b.get? k' := by
  induction b with
  | nil => simp [Buffers.set, Buffers.get?, h]
  | cons kv b ih =>
    obtain ⟨a, w⟩ := kv
    by_cases hak : a = k
    · subst hak
      simp [Buffers.set, Buffers.get?, h]
    · simp [Buffers.set, Buffers.get?, hak, ih]

theorem Buffers.getD_set_ne (b : Buffers) (k k' : Nat) (v : List DomainEvent)
    (h : k ≠ k') : (b.set k v).getD k' = b.getD k' := by
  simp [Buffers.getD, Buffers.get?_set_ne b k k' v h]

theorem Buffers.set_set (b : Buffers) (k : Nat) (v v' : List DomainEvent) :
    (b.set k v).set k v' = b.set k v' := by
  induction b with
  | nil => simp [Buffers.set]
  | cons kv b ih =>
    obtain ⟨a, w⟩ := kv
    by_cases hak : a = k <;> simp [Buffers.set, hak, ih]

theorem Buffers.set_eq_self (b : Buffers) (k : Nat) (v : List DomainEvent)
    (h : b.get? k = some v) : b.set k v = b := by
  induction b with
  | nil => simp [Buffers.get?] at h
  | cons kv b ih =>
    obtain ⟨a, w⟩ := kv
    by_cases hak : a = k
    · subst hak
      have hw : w = v := by simpa [Buffers.get?] using h
      simp [Buffers.set, hw]
    · simp only [Buffers.get?, if_neg hak] at h
      simp [Buffers.set, hak, ih h]

theorem Buffers.get?_pop_self (b : Buffers) (k : Nat) :
    (b.pop k).get? k = none := by
  induction b with
  | nil => rfl
  | cons kv b ih =>
    obtain ⟨a, w⟩ := kv
    by_cases hak : a = k
    · subst hak
      simpa [Buffers.pop, List.filter_cons] using ih
    · have hbne : (a != k) = true := by simpa using hak
      simpa [Buffers.pop, List.filter_cons, hbne, Buffers.get?, hak] using ih

theorem Buffers.getD_pop_self (b : Buffers) (k : Nat) :
    (b.pop k).getD k = [] := by
  simp [Buffers.getD, Buffers.get?_pop_self]

/-! ## Monadic plumbing -/

instance {ε α : Type} [DecidableEq ε] [DecidableEq α] :
    DecidableEq (Except ε α)
  | Except.error e, Except.error e' =>
      decidable_of_iff (e = e')
        ⟨fun h => by rw [h], fun h => by injection h⟩
  | Except.error _, Except.ok _ => isFalse (fun h => by injection h)
  | Except.ok _, Except.error _ => isFalse (fun h => by injection h)
  | Except.ok a, Except.ok a' =>
      decidable_of_iff (a = a')
        ⟨fun h => by rw [h], fun h => by injection h⟩

theorem except_bind_ok {ε α β : Type} (a : α) (f : α → Except ε β) :
    (Except.ok a >>= f) = f a := rfl

theorem except_bind_error {ε α β : Type} (e : ε) (f : α → Except ε β) :
    ((Except.error e : Except ε α) >>= f) = Except.error e := rfl

/-! ## `apply` preserves well-formedness of the field dictionary -/

theorem Dog.apply_nodupKeys (d d' : Dict) (e : DomainEvent)
    (hd : d.NodupKeys) (h : Dog.apply d e = Except.ok d') : d'.NodupKeys := by
  cases e with
  | registered v i t name =>
    simp only [Dog.apply, Except.ok.injEq] at h
    subst h
    exact Dict.nodupKeys_set _ _ _ (Dict.nodupKeys_set _ _ _
      (Dict.nodupKeys_set _ _ _ (Dict.nodupKeys_set _ _ _
        (Dict.nodupKeys_set _ _ _ hd))))
  | trickAdded v i t trick =>
    simp only [Dog.apply] at h
    split at h
    · simp only [Except.ok.injEq] at h
      subst h
      exact Dict.nodupKeys_set _ _ _ (Dict.nodupKeys_set _ _ _ hd)
    · injection h
    · injection h
  | snapshot s =>
    simp only [Dog.apply, Except.ok.injEq] at h
    subst h
    exact Dict.updateWith_nodupKeys s.state d hd
  | other v i t kind =>
    simp only [Dog.apply, Except.ok.injEq] at h
    subst h
    exact hd

theorem foldlM_apply_nodupKeys : ∀ (es : List DomainEvent) (d d' : Dict),
    d.NodupKeys → es.foldlM Dog.apply d = Except.ok d' → d'.NodupKeys := by
  intro es
  induction es with
  | nil =>
    intro d d' hd h
    rw [List.foldlM_nil] at h
    injection h with h
    exact h ▸ hd
  | cons e es ih =>
    intro d d' hd h
    rw [List.foldlM_cons] at h
    cases happ : Dog.apply d e with
    | error err => rw [happ, except_bind_error] at h; injection h
    | ok d₁ =>
      rw [happ, except_bind_ok] at h
      exact ih d₁ d' (Dog.apply_nodupKeys d d₁ e hd happ) h

/-! ## Computation lemmas for the `Dog` life cycle -/

theorem Dog.init_run (B : Buffers) (c oid u : Nat) (name : String) :
    Dog.init ⟨B, c⟩ oid u name =
      Except.ok
        (⟨B.set oid (B.getD oid ++ [DomainEvent.registered 1 u c name]), c + 1⟩,
         ⟨oid, dogState u c name 1 []⟩) := rfl

theorem Dog.add_trick_run (B : Buffers) (c oid u c0 : Nat) (name : String)
    (v : Int) (tr : List String) (trick : String) :
    Dog.add_trick ⟨B, c⟩ ⟨oid, dogState u c0 name v tr⟩ trick =
      Except.ok
        (⟨B.set oid (B.getD oid ++ [DomainEvent.trickAdded (v + 1) u c trick]),
          c + 1⟩,
         ⟨oid, dogState u c0 name (v + 1) (tr ++ [trick])⟩) := rfl

theorem Dog.runTricks_run :
    ∀ (ts : List String) (B : Buffers) (c oid u c0 : Nat) (name : String)
      (v : Int) (tr : List String) (l : List DomainEvent),
    B.get? oid = some l →
    Dog.runTricks ⟨B, c⟩ ⟨oid, dogState u c0 name v tr⟩ ts =
      Except.ok
        (⟨B.set oid (B.getD oid ++ trickEvents u v c ts), c + ts.length⟩,
         ⟨oid, dogState u c0 name (v + ts.length) (tr ++ ts)⟩) := by
  intro ts
  induction ts with
  | nil =>
    intro B c oid u c0 name v tr l hl
    have hD : B.getD oid = l := by simp [Buffers.getD, hl]
    simp [Dog.runTricks, trickEvents, hD, Buffers.set_eq_self B oid l hl]
  | cons t ts ih =>
    intro B c oid u c0 name v tr l hl
    have hv : (v + 1) + (ts.length : Int) = v + ((ts.length : Int) + 1) := by ring
    have hc : c + 1 + ts.length = c + (ts.length + 1) := by omega
    simp only [Dog.runTricks, Dog.add_trick_run, except_bind_ok]
    rw [ih (B.set oid (B.getD oid ++ [DomainEvent.trickAdded (v + 1) u c t]))
      (c + 1) oid u c0 name (v + 1) (tr ++ [t])
      (B.getD oid ++ [DomainEvent.trickAdded (v + 1) u c t])
      (Buffers.get?_set_self _ _ _)]
    simp [trickEvents, Buffers.set_set, Buffers.getD_set_self, List.append_assoc,
      dogState, hv, hc]

/-- A full `Dog` life cycle on a fresh identity: construction followed by one
`add_trick` per listed trick. -/
theorem Dog.run_spec (B : Buffers) (c oid u : Nat) (name : String)
    (ts : List String) (h0 : Buffers.getD B oid = []) :
    Dog.run ⟨B, c⟩ oid u name ts =
      Except.ok
        (⟨B.set oid (DomainEvent.registered 1 u c name :: trickEvents u 1 (c + 1) ts),
          c + 1 + ts.length⟩,
         ⟨oid, dogState u c name (1 + ts.length) ts⟩) := by
  simp only [Dog.run, Dog.init_run, except_bind_ok, h0, List.nil_append]
  rw [Dog.runTricks_run ts (B.set oid [DomainEvent.registered 1 u c name])
    (c + 1) oid u c name 1 [] [DomainEvent.registered 1 u c name]
    (Buffers.get?_set_self _ _ _)]
  simp [Buffers.set_set, Buffers.getD_set_self]

theorem trickEvents_versions (ts : List String) : ∀ (u : Nat) (v : Int) (c : Nat),
    consecutiveFromB (v + 1)
      ((trickEvents u v c ts).map DomainEvent.originator_version) = true := by
  induction ts with
  | nil => intro u v c; rfl
  | cons t ts ih =>
    intro u v c
    simp [trickEvents, consecutiveFromB, DomainEvent.originator_version, ih]

theorem trickEvents_length (ts : List String) : ∀ (u : Nat) (v : Int) (c : Nat),
    (trickEvents u v c ts).length = ts.length := by
  induction ts with
  | nil => intro u v c; rfl
  | cons t ts ih => intro u v c; simp [trickEvents, ih]

/-- What `trigger_event` does on an aggregate whose `version` and `id` fields
are set: the event is constructed from the imposed envelope values and, when
`apply` succeeds, appended to this instance's pending list. -/
theorem trigger_event_eq (w : World) (self : Obj)
    (ec : Int → Nat → Nat → String → DomainEvent) (kw : Kwargs) (p : String)
    (v : Int) (i : Nat)
    (hv : self.dict.get "version" = some (PyVal.int v))
    (hi : self.dict.get "id" = some (PyVal.uuid i)) :
    Aggregate.trigger_event w self ec kw p =
      match Dog.apply self.dict (ec (v + 1) i w.clock p) with
      | Except.ok d' =>
          Except.ok
            ({ buffers := w.buffers.set self.oid
                 (w.buffers.getD self.oid ++ [ec (v + 1) i w.clock p]),
               clock := w.clock + 1 },
             { self with dict := d' })
      | Except.error e => Except.error e := by
  simp only [Aggregate.trigger_event, hv, hi, except_bind_ok]
  cases happ : Dog.apply self.dict (ec (v + 1) i w.clock p) with
  | ok d' => rfl
  | error e => rfl

/-! ## Claims -/

/-- C1, counterexample: the claim says that with an empty event sequence the
projector returns the unchanged seed aggregate.  It does not: given a fully
materialised `Dog` as seed and no events, `Aggregate.projector` returns a
fresh shell with an empty field dictionary, not the seed. -/
theorem claim1_cex_seed_not_returned :
    ¬ (Aggregate.projector ⟨[], 0⟩ (some ⟨7, dogState 42 0 "Fido" 1 []⟩) [] 7 =
        Except.ok ((⟨[], 0⟩ : World), (⟨7, dogState 42 0 "Fido" 1 []⟩ : Obj))) := by
  decide

/-- C1, amended: `Aggregate.projector` ignores the supplied seed aggregate
entirely — it rebinds the parameter to a fresh uninitialised shell, applies
each event of the sequence in order to that shell via the `apply` dispatch,
and for the empty sequence returns the fresh empty shell (not the seed).
The result is therefore independent of the seed argument. -/
theorem claim1_projector_discards_seed (w : World) (seed seed' : Option Obj)
    (events : List DomainEvent) (freshOid : Nat) :
    Aggregate.projector w seed events freshOid =
      Aggregate.projector w seed' events freshOid ∧
    Aggregate.projector w seed [] freshOid =
      Except.ok (w, (⟨freshOid, []⟩ : Obj)) ∧
    Aggregate.projector w seed events freshOid =
      Except.map (fun d => (w, Obj.mk freshOid d)) (events.foldlM Dog.apply []) := by
  refine ⟨rfl, rfl, ?_⟩
  unfold Aggregate.projector
  cases events.foldlM Dog.apply ([] : Dict) with
  | ok d => rfl
  | error e => rfl

/-- C2, counterexample: the claim says an event kind with no registered
handler is a fatal error that surfaces to the caller.  It is not: the
`singledispatchmethod` base handler's body is only a docstring, so applying
an event of an unregistered kind succeeds and leaves the aggregate state
unchanged — no error is raised. -/
theorem claim2_cex_unregistered_kind_ok :
    Dog.apply (dogState 42 0 "Fido" 1 []) (DomainEvent.other 2 42 1 "Barked") =
      Except.ok (dogState 42 0 "Fido" 1 []) := rfl

/-- C2, amended: applying an event whose kind has no registered handler is
silently ignored — the base-handler fallback returns successfully and the
aggregate's field dictionary is left exactly unchanged, for every aggregate
state and every such event. -/
theorem claim2_apply_fallback_silent (d : Dict) (v : Int) (i t : Nat)
    (kind : String) :
    Dog.apply d (DomainEvent.other v i t kind) = Except.ok d := rfl

/-- C3, counterexample: the claim says applying a `Snapshot` replaces the
aggregate's entire field set, leaving no prior field alive unless it occurs
in the snapshot's state, with `version` becoming the snapshot's
`originator_version`.  `__dict__.update` is a merge, not a replacement: a
prior `name` field absent from the snapshot state survives, and `version`
becomes the value recorded inside the state (2), not the snapshot's
`originator_version` (3). -/
theorem claim3_cex_field_survives :
    Dog.apply [("name", PyVal.str "Fido"), ("version", PyVal.int 5)]
        (DomainEvent.snapshot ⟨42, 3, 9, [("version", PyVal.int 2)]⟩) =
      Except.ok [("name", PyVal.str "Fido"), ("version", PyVal.int 2)] ∧
    Dict.get [("name", PyVal.str "Fido"), ("version", PyVal.int 2)] "name" =
      some (PyVal.str "Fido") ∧
    Dict.get [("name", PyVal.str "Fido"), ("version", PyVal.int 2)] "version" ≠
      some (PyVal.int 3) := by
  refine ⟨rfl, rfl, ?_⟩
  decide

/-- C3, amended: applying a `Snapshot` merges the snapshot's captured state
into the aggregate's field dictionary: every field present in the snapshot's
state is overwritten with the snapshot's value (in particular `version`
becomes whatever the state records for it), while a field absent from the
snapshot's state keeps its previous value. -/
theorem claim3_apply_snapshot_merges (d : Dict) (s : Snapshot)
    (h : Dict.NodupKeys s.state) :
    Dog.apply d (DomainEvent.snapshot s) = Except.ok (d.updateWith s.state) ∧
    ∀ k, (d.updateWith s.state).get k =
      match Dict.get s.state k with
      | some v => some v
      | none => d.get k :=
  ⟨rfl, fun k => Dict.get_updateWith s.state d k h⟩

/-- Witness for C3's amended theorem at a concrete input: a snapshot state
with the single field `version` is merged into a dictionary holding only
`name`; the untouched `name` field keeps its value. -/
theorem claim3_apply_snapshot_merges_witness :
    Dict.NodupKeys [("version", PyVal.int 1)] ∧
    Dict.get
      (Dict.updateWith [("name", PyVal.str "Fido")] [("version", PyVal.int 1)])
      "name" = some (PyVal.str "Fido") := by
  constructor
  · decide
  · exact (claim3_apply_snapshot_merges [("name", PyVal.str "Fido")]
      ⟨1, 2, 0, [("version", PyVal.int 1)]⟩ (by decide)).2 "name"

/-- C4, counterexample: the claim says that after `N` `trigger_event` calls
starting from construction the version equals `N`.  Already at `N = 0` this
fails: the founding event applied by the constructor establishes version 1,
not 0. -/
theorem claim4_cex_version_not_zero :
    Dog.run ⟨[], 0⟩ 1 42 "Fido" [] =
      Except.ok ((⟨[(1, [DomainEvent.registered 1 42 0 "Fido"])], 1⟩ : World),
                 (⟨1, dogState 42 0 "Fido" 1 []⟩ : Obj)) ∧
    Dict.get (dogState 42 0 "Fido" 1 []) "version" ≠ some (PyVal.int 0) := by
  refine ⟨rfl, by decide⟩

/-- C4, amended: after construction followed by `N` successful
`trigger_event` calls (one per trick), the aggregate's `version` equals
`N + 1`, and `collect_events` returns `N + 1` events — the founding event
plus the `N` triggered ones — whose `originator_version`s are exactly
`1, 2, ..., N + 1` in order. -/
theorem claim4_version_after_run (w : World) (oid u : Nat) (name : String)
    (tricks : List String) (wf : World) (dog : Obj)
    (h0 : w.buffers.getD oid = [])
    (h : Dog.run w oid u name tricks = Except.ok (wf, dog)) :
    Dict.get dog.dict "version" = some (PyVal.int (1 + tricks.length)) ∧
    ((Aggregate.collect_events wf dog).1).length = tricks.length + 1 ∧
    consecutiveFromB 1
      (((Aggregate.collect_events wf dog).1).map DomainEvent.originator_version) =
      true := by
  obtain ⟨B, c⟩ := w
  rw [Dog.run_spec B c oid u name tricks h0] at h
  simp only [Except.ok.injEq, Prod.mk.injEq] at h
  obtain ⟨hw, hd⟩ := h
  subst hw hd
  refine ⟨?_, ?_, ?_⟩
  · simp [dogState, Dict.get]
  · simp [Aggregate.collect_events, Buffers.getD_set_self, trickEvents_length]
  · simp only [Aggregate.collect_events, Buffers.getD_set_self, List.map_cons,
      DomainEvent.originator_version, consecutiveFromB]
    have hrest := trickEvents_versions tricks u 1 (c + 1)
    norm_num at hrest ⊢
    exact hrest

/-- Witness for C4's amended theorem: one trick after construction gives
version 2 and two collected events with versions 1, 2. -/
theorem claim4_version_after_run_witness :
    Dict.get (Obj.dict ⟨1, dogState 42 0 "Fido" 2 ["roll over"]⟩) "version" =
      some (PyVal.int (1 + (["roll over"] : List String).length)) ∧
    ((Aggregate.collect_events
        ⟨[(1, [DomainEvent.registered 1 42 0 "Fido",
               DomainEvent.trickAdded 2 42 1 "roll over"])], 2⟩
        ⟨1, dogState 42 0 "Fido" 2 ["roll over"]⟩).1).length =
      (["roll over"] : List String).length + 1 ∧
    consecutiveFromB 1
      (((Aggregate.collect_events
          ⟨[(1, [DomainEvent.registered 1 42 0 "Fido",
                 DomainEvent.trickAdded 2 42 1 "roll over"])], 2⟩
          ⟨1, dogState 42 0 "Fido" 2 ["roll over"]⟩).1).map
        DomainEvent.originator_version) = true :=
  claim4_version_after_run ⟨[], 0⟩ 1 42 "Fido" ["roll over"] _ _ (by decide)
    (by decide)

/-- C5: `collect_events` returns exactly the instance's pending buffer and
empties it: an immediately repeated call returns `[]`, buffers of other
identities are untouched, and for a constructed aggregate the returned
sequence is the founding event followed by the triggered events in trigger
order with consecutive versions. -/
theorem claim5_collect_events_drains (w : World) (self : Obj) :
    (Aggregate.collect_events w self).1 = w.buffers.getD self.oid ∧
    ((Aggregate.collect_events w self).2).buffers.getD self.oid = [] ∧
    (Aggregate.collect_events (Aggregate.collect_events w self).2 self).1 = [] ∧
    (∀ k, k ≠ self.oid →
      ((Aggregate.collect_events w self).2).buffers.getD k = w.buffers.getD k) ∧
    (∀ (oid u : Nat) (name : String) (ts : List String) (wf : World) (dog : Obj),
      w.buffers.getD oid = [] →
      Dog.run w oid u name ts = Except.ok (wf, dog) →
      (Aggregate.collect_events wf dog).1 =
        DomainEvent.registered 1 u w.clock name ::
          trickEvents u 1 (w.clock + 1) ts) := by
  refine ⟨rfl, ?_, ?_, ?_, ?_⟩
  · simp [Aggregate.collect_events, Buffers.getD_set_self]
  · simp [Aggregate.collect_events, Buffers.getD_set_self]
  · intro k hk
    simp [Aggregate.collect_events,
      Buffers.getD_set_ne _ _ _ _ (fun hkk => hk hkk.symm)]
  · intro oid u name ts wf dog h0 hrun
    obtain ⟨B, c⟩ := w
    rw [Dog.run_spec B c oid u name ts h0] at hrun
    simp only [Except.ok.injEq, Prod.mk.injEq] at hrun
    obtain ⟨hw, hd⟩ := hrun
    subst hw hd
    simp [Aggregate.collect_events, Buffers.getD_set_self]

/-- Witness for C5: drain a world holding one pending event for identity 1;
an immediate second call returns the empty list. -/
theorem claim5_collect_events_drains_witness :
    (Aggregate.collect_events
      (Aggregate.collect_events
        ⟨[(1, [DomainEvent.registered 1 42 0 "Fido"])], 1⟩ ⟨1, []⟩).2
      ⟨1, []⟩).1 = [] :=
  (claim5_collect_events_drains
    ⟨[(1, [DomainEvent.registered 1 42 0 "Fido"])], 1⟩ ⟨1, []⟩).2.2.1

/-- C6: calling `trigger_event` on an object on which no founding event has
been applied (its `__dict__` has no `version` entry) raises
`AttributeError` at the `self.version` read; no event is constructed and
nothing is appended to any pending buffer — the call returns the error and
no new world. -/
theorem claim6_trigger_event_uninit_error (w : World) (self : Obj)
    (event_class : Int → Nat → Nat → String → DomainEvent) (kwargs : Kwargs)
    (payload : String) (h : Dict.get self.dict "version" = none) :
    Aggregate.trigger_event w self event_class kwargs payload =
      Except.error (PyError.attributeError "version") := by
  simp [Aggregate.trigger_event, h, except_bind_error]

/-- Witness for C6: a freshly `object.__new__`-style shell (empty
`__dict__`) with any event class and payload. -/
theorem claim6_trigger_event_uninit_error_witness :
    Dict.get (Obj.dict ⟨5, []⟩) "version" = none ∧
    Aggregate.trigger_event ⟨[], 0⟩ ⟨5, []⟩ DomainEvent.trickAdded
        ⟨none, none, none⟩ "roll over" =
      Except.error (PyError.attributeError "version") :=
  ⟨rfl, claim6_trigger_event_uninit_error ⟨[], 0⟩ ⟨5, []⟩ DomainEvent.trickAdded
      ⟨none, none, none⟩ "roll over" rfl⟩

/-- C7: snapshot equivalence.  If replaying the first `k` events of a
history from nothing yields the aggregate `ak`, then replaying a snapshot
taken of `ak` followed by the remaining events `E(k+1)..En` yields exactly
the same result as replaying the whole history from nothing — for any
snapshot envelope values and whether or not the full replay succeeds. -/
theorem claim7_snapshot_equivalence (w : World) (es : List DomainEvent)
    (k oid i : Nat) (v : Int) (t : Nat) (w₂ : World) (ak : Obj)
    (h : Aggregate.projector w none (es.take k) oid = Except.ok (w₂, ak)) :
    Aggregate.projector w none
        (DomainEvent.snapshot (Snapshot.take ak i v t) :: es.drop k) oid =
      Aggregate.projector w none es oid := by
  unfold Aggregate.projector at h ⊢
  cases htake : (es.take k).foldlM Dog.apply ([] : Dict) with
  | error e => rw [htake] at h; simp at h
  | ok d =>
    rw [htake] at h
    simp only [Except.ok.injEq, Prod.mk.injEq] at h
    obtain ⟨-, hak⟩ := h
    subst hak
    have hnd : Dict.NodupKeys d :=
      foldlM_apply_nodupKeys (es.take k) [] d
        (by simp [Dict.NodupKeys, Dict.keys]) htake
    have hsnap :
        Dog.apply [] (DomainEvent.snapshot (Snapshot.take ⟨oid, d⟩ i v t)) =
          Except.ok d := by
      simp [Dog.apply, Snapshot.take, Dict.updateWith_nil d hnd]
    rw [List.foldlM_cons, hsnap, except_bind_ok]
    conv_rhs => rw [← List.take_append_drop k es]
    rw [List.foldlM_append, htake, except_bind_ok]

/-- Witness for C7: history of a founding event and two tricks, snapshot
taken after the first two events. -/
theorem claim7_snapshot_equivalence_witness :
    (Aggregate.projector ⟨[], 0⟩ none
        ([DomainEvent.registered 1 42 0 "Fido",
          DomainEvent.trickAdded 2 42 1 "roll over",
          DomainEvent.trickAdded 3 42 2 "play dead"].take 2) 7 =
      Except.ok ((⟨[], 0⟩ : World),
        (⟨7, dogState 42 0 "Fido" 2 ["roll over"]⟩ : Obj))) ∧
    Aggregate.projector ⟨[], 0⟩ none
        (DomainEvent.snapshot
          (Snapshot.take ⟨7, dogState 42 0 "Fido" 2 ["roll over"]⟩ 42 2 5) ::
         [DomainEvent.registered 1 42 0 "Fido",
          DomainEvent.trickAdded 2 42 1 "roll over",
          DomainEvent.trickAdded 3 42 2 "play dead"].drop 2) 7 =
      Aggregate.projector ⟨[], 0⟩ none
        [DomainEvent.registered 1 42 0 "Fido",
         DomainEvent.trickAdded 2 42 1 "roll over",
         DomainEvent.trickAdded 3 42 2 "play dead"] 7 :=
  ⟨by decide,
   claim7_snapshot_equivalence ⟨[], 0⟩
     [DomainEvent.registered 1 42 0 "Fido",
      DomainEvent.trickAdded 2 42 1 "roll over",
      DomainEvent.trickAdded 3 42 2 "play dead"] 2 7 42 2 5 ⟨[], 0⟩
     ⟨7, dogState 42 0 "Fido" 2 ["roll over"]⟩ (by decide)⟩

/-- C8: replay is free of buffer side effects.  Whenever the projector
succeeds, the returned world's pending-event map is exactly the input
world's — no pending buffer of any instance has grown. -/
theorem claim8_projector_frame (w : World) (seed : Option Obj)
    (events : List DomainEvent) (oid : Nat) (w' : World) (a : Obj)
    (h : Aggregate.projector w seed events oid = Except.ok (w', a)) :
    w'.buffers = w.buffers ∧ ∀ k : Nat, w'.buffers.getD k = w.buffers.getD k := by
  unfold Aggregate.projector at h
  cases hf : events.foldlM Dog.apply ([] : Dict) with
  | error e => rw [hf] at h; simp at h
  | ok d =>
    rw [hf] at h
    simp only [Except.ok.injEq, Prod.mk.injEq] at h
    obtain ⟨hw, -⟩ := h
    exact ⟨by rw [← hw], fun k => by rw [← hw]⟩

/-- Witness for C8: a replay over a world already holding a pending event
for another instance leaves the pending-event map untouched. -/
theorem claim8_projector_frame_witness :
    (⟨[(3, [DomainEvent.registered 1 9 0 "Rex"])], 4⟩ : World).buffers =
      (⟨[(3, [DomainEvent.registered 1 9 0 "Rex"])], 4⟩ : World).buffers :=
  (claim8_projector_frame ⟨[(3, [DomainEvent.registered 1 9 0 "Rex"])], 4⟩ none
    [DomainEvent.registered 1 42 0 "Fido"] 7
    ⟨[(3, [DomainEvent.registered 1 9 0 "Rex"])], 4⟩
    ⟨7, dogState 42 0 "Fido" 1 []⟩ (by decide)).1

/-- C9: pending-buffer isolation.  Operations on one instance never change
another instance's buffer (`trigger_event` and `collect_events` touch only
their own key); `__del__` removes the instance's entry from the map, so a
later instance reusing the same identity starts from an empty buffer, and a
construction at the reused identity records only its own founding event. -/
theorem claim9_buffer_isolation (w : World) (a b : Obj) (hne : a.oid ≠ b.oid) :
    (∀ (event_class : Int → Nat → Nat → String → DomainEvent) (kwargs : Kwargs)
        (payload : String) (w' : World) (a' : Obj),
      Aggregate.trigger_event w a event_class kwargs payload =
        Except.ok (w', a') →
      w'.buffers.getD b.oid = w.buffers.getD b.oid) ∧
    ((Aggregate.collect_events w a).2).buffers.getD b.oid =
      w.buffers.getD b.oid ∧
    (Aggregate.del w a).buffers.get? a.oid = none ∧
    (Aggregate.del w a).buffers.getD a.oid = [] ∧
    (∀ (u : Nat) (name : String) (w₂ : World) (dog : Obj),
      Dog.init (Aggregate.del w a) a.oid u name = Except.ok (w₂, dog) →
      w₂.buffers.getD a.oid = [DomainEvent.registered 1 u w.clock name]) := by
  refine ⟨?_, ?_, Buffers.get?_pop_self _ _, Buffers.getD_pop_self _ _, ?_⟩
  · intro ec kw p w' a' h
    cases hv : Dict.get a.dict "version" with
    | none => simp [Aggregate.trigger_event, hv, except_bind_error, except_bind_ok] at h
    | some pv =>
      cases pv with
      | int v =>
        cases hi : Dict.get a.dict "id" with
        | none => simp [Aggregate.trigger_event, hv, hi, except_bind_error, except_bind_ok] at h
        | some pi =>
          cases pi with
          | uuid i =>
            rw [trigger_event_eq w a ec kw p v i hv hi] at h
            cases happ : Dog.apply a.dict (ec (v + 1) i w.clock p) with
            | error e => rw [happ] at h; simp at h
            | ok d' =>
              rw [happ] at h
              simp only [Except.ok.injEq, Prod.mk.injEq] at h
              obtain ⟨hw, -⟩ := h
              rw [← hw]
              exact Buffers.getD_set_ne _ _ _ _ hne
          | int x => simp [Aggregate.trigger_event, hv, hi, except_bind_error, except_bind_ok] at h
          | time x => simp [Aggregate.trigger_event, hv, hi, except_bind_error, except_bind_ok] at h
          | str x => simp [Aggregate.trigger_event, hv, hi, except_bind_error, except_bind_ok] at h
          | strList x =>
            simp [Aggregate.trigger_event, hv, hi, except_bind_error, except_bind_ok] at h
      | uuid x => simp [Aggregate.trigger_event, hv, except_bind_error, except_bind_ok] at h
      | time x => simp [Aggregate.trigger_event, hv, except_bind_error, except_bind_ok] at h
      | str x => simp [Aggregate.trigger_event, hv, except_bind_error, except_bind_ok] at h
      | strList x => simp [Aggregate.trigger_event, hv, except_bind_error, except_bind_ok] at h
  · simp [Aggregate.collect_events, Buffers.getD_set_ne _ _ _ _ hne]
  · intro u name w₂ dog h
    obtain ⟨B, c⟩ := w
    rw [show Aggregate.del ⟨B, c⟩ a = ⟨B.pop a.oid, c⟩ from rfl, Dog.init_run] at h
    simp only [Except.ok.injEq, Prod.mk.injEq] at h
    obtain ⟨hw, -⟩ := h
    rw [← hw]
    simp [Buffers.getD_set_self, Buffers.getD_pop_self]

/-- Witness for C9: two live instances with identities 1 and 2; draining
instance 1 leaves instance 2's pending buffer unchanged. -/
theorem claim9_buffer_isolation_witness :
    ((Aggregate.collect_events
        ⟨[(1, []), (2, [DomainEvent.registered 1 8 0 "Rex"])], 3⟩ ⟨1, []⟩).2).buffers.getD
      (Obj.oid ⟨2, []⟩) =
      (⟨[(1, []), (2, [DomainEvent.registered 1 8 0 "Rex"])], 3⟩ : World).buffers.getD
        (Obj.oid ⟨2, []⟩) :=
  (claim9_buffer_isolation
    ⟨[(1, []), (2, [DomainEvent.registered 1 8 0 "Rex"])], 3⟩ ⟨1, []⟩ ⟨2, []⟩
    (by decide)).2.1

/-- C10: `trigger_event` silently overwrites any caller-supplied
`originator_id`, `originator_version` or `timestamp` keyword arguments:
the call's outcome is identical to the call without them, and the event it
constructs and appends always carries the aggregate's `id`, the aggregate's
`version + 1`, and the freshly created timestamp. -/
theorem claim10_trigger_event_imposes_envelope (w : World) (self : Obj)
    (ec : Int → Nat → Nat → String → DomainEvent) (kw : Kwargs) (p : String)
    (v : Int) (i : Nat)
    (hv : Dict.get self.dict "version" = some (PyVal.int v))
    (hi : Dict.get self.dict "id" = some (PyVal.uuid i)) :
    Aggregate.trigger_event w self ec kw p =
      Aggregate.trigger_event w self ec ⟨none, none, none⟩ p ∧
    ∀ (w' : World) (self' : Obj),
      Aggregate.trigger_event w self ec kw p = Except.ok (w', self') →
      w'.buffers.getD self.oid =
        w.buffers.getD self.oid ++ [ec (v + 1) i w.clock p] := by
  constructor
  · rw [trigger_event_eq w self ec kw p v i hv hi,
        trigger_event_eq w self ec ⟨none, none, none⟩ p v i hv hi]
  · intro w' self' h
    rw [trigger_event_eq w self ec kw p v i hv hi] at h
    cases happ : Dog.apply self.dict (ec (v + 1) i w.clock p) with
    | error e => rw [happ] at h; simp at h
    | ok d' =>
      rw [happ] at h
      simp only [Except.ok.injEq, Prod.mk.injEq] at h
      obtain ⟨hw, -⟩ := h
      rw [← hw]
      exact Buffers.getD_set_self _ _ _

/-- Witness for C10: caller-supplied envelope keyword arguments (99, 77, 55)
change nothing compared to the call without them. -/
theorem claim10_trigger_event_imposes_envelope_witness :
    Aggregate.trigger_event ⟨[], 5⟩ ⟨1, dogState 42 0 "Fido" 1 []⟩
        DomainEvent.trickAdded ⟨some 99, some 77, some 55⟩ "roll over" =
      Aggregate.trigger_event ⟨[], 5⟩ ⟨1, dogState 42 0 "Fido" 1 []⟩
        DomainEvent.trickAdded ⟨none, none, none⟩ "roll over" :=
  (claim10_trigger_event_imposes_envelope ⟨[], 5⟩
    ⟨1, dogState 42 0 "Fido" 1 []⟩ DomainEvent.trickAdded
    ⟨some 99, some 77, some 55⟩ "roll over" 1 42 (by decide) (by decide)).1

end ES
